import Mathlib

/-!
# Verification of the Reiatsu HTTP core

Shallow embedding of the route compiler/matcher, the middleware chain
executor, the dispatch orchestrator's error wrapper, and the file-path
validation helpers of the Reiatsu framework, together with theorems
settling the specification claims about them.

Effectful TypeScript code is embedded as explicit state passing: a
computation takes a state (event trace, response object, the mutable
`index` cell used by `compose`) and returns an `Except` outcome paired
with the state at the moment of return or throw (JavaScript mutations
performed before a throw persist, so the state is threaded through
errors as well).
-/

namespace Reiatsu

/-- One observable event recorded while a middleware chain runs:
code before a middleware's `next` call, code after it, or the terminal
handler's body. -/
inductive Event where
  | pre (name : String)
  | post (name : String)
  | handled (name : String)
  deriving DecidableEq, Repr

/-- A finished HTTP response as produced by `res.writeHead` followed by
`res.end`: status code, content type, body. -/
structure ResponseRecord where
  status : Nat
  contentType : String
  body : String
  deriving DecidableEq, Repr

/-- The Node `ServerResponse` surface the orchestrator touches:
whether headers have been sent, the status/content-type pending between
`writeHead` and `end`, and the list of responses fully written. -/
structure Res where
  headersSent : Bool
  pending : Option (Nat × String)
  sent : List ResponseRecord
  deriving DecidableEq, Repr

/-- A fresh response object: nothing sent. -/
def Res.init : Res := ⟨false, none, []⟩

/-- Embeds `res.writeHead(status, { "Content-Type": ct })`: marks headers
sent and stores the status line until `end` completes the response. -/
def Res.writeHead (r : Res) (status : Nat) (contentType : String) : Res :=
  { r with headersSent := true, pending := some (status, contentType) }

/-- Embeds `res.end(body)`: completes the pending response (or an
implicit 200 when `writeHead` was never called). -/
def Res.endWith (r : Res) (body : String) : Res :=
  match r.pending with
  | some (st, ct) =>
      { r with pending := none, sent := r.sent ++ [⟨st, ct, body⟩] }
  | none =>
      { r with headersSent := true, sent := r.sent ++ [⟨200, "", body⟩] }

/-- Per-request mutable state threaded through a chain: the recorded
event trace, the response object, and the `index` closure cell of a
`compose` dispatcher (`-1` when no dispatch is active). -/
structure S where
  trace : List Event
  res : Res
  composeIdx : Int
  deriving DecidableEq, Repr

/-- The initial per-request state. -/
def S.init : S := ⟨[], Res.init, -1⟩

/-- An effectful computation (`async` function body): given the current
state it either completes or throws, and returns the state at that
moment. -/
abbrev Comp := S → Except String Unit × S

/-- A middleware `(ctx, next) => …` : it receives the remainder of the
chain as the computation `next` and yields a computation. -/
abbrev Mw := Comp → Comp

/-- Embeds `runNext` from `runMiddlewares` (src/core/middleware.ts):
`runNext(index)` runs `middlewares[index]` with
`next = () => runNext(index + 1)`, or the handler once the index passes
the end. The index argument is represented by the suffix
`middlewares.drop index`, so the two equations below are the two sides
of the `index < middlewares.length` test. No guard of any kind is
performed around `next`. -/
def runNext (handler : Comp) : List Mw → Comp
  | [] => handler
  | m :: rest => fun s => m (runNext handler rest) s

/-- Embeds `runMiddlewares(ctx, middlewares, handler)`
(src/core/middleware.ts): starts `runNext` at index 0. -/
def runMiddlewares (mws : List Mw) (handler : Comp) : Comp :=
  runNext handler mws

/-- Embeds `dispatch` from `compose` (src/core/compose.ts). `dispatch i`
first checks `i <= index` and throws `"next() called multiple times"`,
then sets `index := i` and runs `middlewares[i]` with
`next = () => dispatch(i + 1)`, or the outer `next` once `i` reaches the
list's length. As in `runNext`, the numeric position is carried both as
the suffix `middlewares.drop i` and as the integer `i` compared against
the shared `index` cell `composeIdx`. -/
def dispatch (next : Comp) : List Mw → Int → Comp
  | [], i => fun s =>
      if i ≤ s.composeIdx then
        (Except.error "next() called multiple times", s)
      else next { s with composeIdx := i }
  | m :: rest, i => fun s =>
      if i ≤ s.composeIdx then
        (Except.error "next() called multiple times", s)
      else m (dispatch next rest (i + 1)) { s with composeIdx := i }

/-- Embeds `compose(...middlewares)` (src/core/compose.ts): the empty
composition just calls `next`; a single middleware is returned as is;
otherwise the composed middleware initialises its `index` cell to `-1`
and starts `dispatch(0)`. -/
def compose (mws : List Mw) : Mw :=
  match mws with
  | [] => fun next => next
  | [m] => m
  | _ => fun next s => dispatch next mws 0 { s with composeIdx := -1 }

/-- Embeds the `try`/`catch` wrapper of `Router.handle`
(src/core/router.ts): run the whole chain; on an uncaught failure,
write a 500 `"Internal Server Error"` response unless
`res.headersSent` is already true, in which case only log. -/
def handleChain (chain : Comp) : Comp := fun s =>
  match chain s with
  | (Except.ok _, s1) => (Except.ok (), s1)
  | (Except.error _, s1) =>
      if s1.res.headersSent then (Except.ok (), s1)
      else
        (Except.ok (),
          { s1 with res := (s1.res.writeHead 500 "text/plain").endWith "Internal Server Error" })

/-- A middleware that records `pre name`, awaits `next`, then records
`post name`; a throw from `next` propagates. -/
def recMw (name : String) : Mw := fun next s =>
  match next { s with trace := s.trace ++ [Event.pre name] } with
  | (Except.ok _, s2) => (Except.ok (), { s2 with trace := s2.trace ++ [Event.post name] })
  | (e, s2) => (e, s2)

/-- A terminal handler that records `handled name`. -/
def recHandler (name : String) : Comp := fun s =>
  (Except.ok (), { s with trace := s.trace ++ [Event.handled name] })

/-- A middleware that records `pre name` and returns without ever
calling `next` (short-circuit). -/
def noNextMw (name : String) : Mw := fun _ s =>
  (Except.ok (), { s with trace := s.trace ++ [Event.pre name] })

/-- A middleware that records `pre name`, awaits `next`, and then awaits
`next` a second time. -/
def doubleNextMw (name : String) : Mw := fun next s =>
  match next { s with trace := s.trace ++ [Event.pre name] } with
  | (Except.ok _, s2) => next s2
  | (e, s2) => (e, s2)

/-! ## Route compiler (src/core/router.ts, `Router.compileRoute`)

`compileRoute` builds a regular-expression source string and hands it to
`new RegExp`.  The string construction below mirrors the TypeScript
line by line; the JavaScript `RegExp` engine itself (a platform
primitive, not part of the repository) is modelled by `parseRegex`
(syntax admission — `new RegExp` throwing is `parseRegex` returning
`none`) and `mrun` (backtracking matching with named captures). -/

/-- The character class of `ESCAPE = /[.*+?^$\x7b\x7d()|[\]\\]/g`. -/
def escapeChars : List Char :=
  ['.', '*', '+', '?', '^', '$', '\x7b', '\x7d', '(', ')', '|', '[', ']', '\\']

/-- Embeds `segment.replace(ESCAPE, "\\$&")`: prefix every special
character with a backslash. -/
def escapeRe (s : String) : String :=
  String.mk (s.toList.flatMap fun c => if c ∈ escapeChars then ['\\', c] else [c])

/-- `[a-zA-Z_]`, the first character of a parameter name. -/
def isIdentStart (c : Char) : Bool := c.isAlpha || c = '_'

/-- `[a-zA-Z0-9_]`, the following characters of a parameter name. -/
def isIdentChar (c : Char) : Bool := c.isAlphanum || c = '_'

/-- Scans for the first `)` — the extent of the `[^)]+` constraint
body.  Returns the characters before it and the characters after it,
or `none` when no `)` follows. -/
def takeUntilParen : List Char → Option (List Char × List Char)
  | [] => none
  | c :: cs =>
      if c = ')' then some ([], cs)
      else
        match takeUntilParen cs with
        | some (a, r) => some (c :: a, r)
        | none => none

/-- One match attempt of `paramRegex =
/:([a-zA-Z_][a-zA-Z0-9_]*)(?:\(([^)]+)\))?/` at the head of the list:
returns the parameter name, the optional constraint, and the rest of
the segment after the token, or `none` when no token starts here. -/
def tokenAt : List Char → Option (List Char × Option (List Char) × List Char)
  | ':' :: c :: cs =>
      if isIdentStart c then
        let name := c :: cs.takeWhile isIdentChar
        let rest := cs.dropWhile isIdentChar
        match rest with
        | '(' :: cs2 =>
            match takeUntilParen cs2 with
            | some (inside, rest2) =>
                -- `[^)]+` requires a non-empty body; `()` leaves the
                -- optional group unmatched and unconsumed.
                if inside.isEmpty then some (name, none, rest)
                else some (name, some inside, rest2)
            | none => some (name, none, rest)
        | _ => some (name, none, rest)
      else none
  | _ => none

/-- The `while ((match = paramRegex.exec(segment)) !== null)` loop over
one segment: literal text around tokens is escaped character by
character (the same result as escaping each slice), each token becomes
a named group — `(?<name>constraint)` when a constraint is present,
`(?<name>[^/]+)` otherwise.  Fuel is the number of characters left and
strictly exceeds the consumption of every step. -/
def scanSeg : Nat → List Char → String × List String
  | 0, _ => ("", [])
  | _ + 1, [] => ("", [])
  | fuel + 1, c :: cs =>
      match tokenAt (c :: cs) with
      | some (nameChars, constr, rest) =>
          let name := String.mk nameChars
          let group :=
            match constr with
            | some body => "(?<" ++ name ++ ">" ++ String.mk body ++ ")"
            | none => "(?<" ++ name ++ ">[^/]+)"
          let (restPat, restNames) := scanSeg fuel rest
          (group ++ restPat, name :: restNames)
      | none =>
          let (restPat, restNames) := scanSeg fuel cs
          (escapeRe (String.singleton c) ++ restPat, restNames)

/-- Compiles one segment: a `*` that is the last segment becomes the
wildcard group; any other segment goes through the token scan.  The
boolean result is this segment's contribution to `hasWildcard`. -/
def compileSegment (isLast : Bool) (seg : String) : String × List String × Bool :=
  if seg = "*" && isLast then ("(?<wildcard>.*)", ["wildcard"], true)
  else
    let (pat, names) := scanSeg (seg.length + 1) seg.toList
    (pat, names, false)

/-- The `segments.map((segment, idx) => …)` loop together with the
mutable `paramNames` and `hasWildcard` accumulators: `idx ===
segments.length - 1` is `rest.isEmpty`. -/
def compileGo : List String → List String × List String × Bool
  | [] => ([], [], false)
  | seg :: rest =>
      let (pat, names, w) := compileSegment rest.isEmpty seg
      let (pats, names2, w2) := compileGo rest
      (pat :: pats, names ++ names2, w || w2)

/-- JavaScript `str.split("/")` over the character list: adjacent,
leading and trailing separators yield empty groups, and the empty
string yields one empty group. -/
def splitOnSlash : List Char → List (List Char)
  | [] => [[]]
  | c :: cs =>
      match splitOnSlash cs with
      | [] => [[c]]
      | g :: gs => if c = '/' then [] :: g :: gs else (c :: g) :: gs

/-- Embeds `path.split("/").filter((seg, idx) => !(idx === 0 && seg ===
""))`: the filter can only ever drop the leading empty segment. -/
def segmentsOf (path : String) : List String :=
  match (splitOnSlash path.toList).map String.mk with
  | [] => []
  | s0 :: rest => if s0 = "" then rest else s0 :: rest

/-- Builds the full `RegExp` source `prefix + suffix` together with the
parameter names and the wildcard flag:
`prefix = "^" + (parts.length ? "/" + parts.join("/") : "")`,
`suffix = hasWildcard ? "" : "$"`. -/
def buildSrc (path : String) : String × List String × Bool :=
  let (parts, names, w) := compileGo (segmentsOf path)
  let pre := "^" ++ (if parts.isEmpty then "" else "/" ++ String.intercalate "/" parts)
  let suf := if w then "" else "$"
  (pre ++ suf, names, w)

/-! ## The JavaScript `RegExp` engine, for the fragment reachable from
`compileRoute`: literals and escapes, `.`, character classes with
ranges and negation, groups (numbered, non-capturing, named), named
captures, alternation, greedy and lazy `*` `+` `?`, and the `^`/`$`
assertions.  Lookaround groups are admitted syntactically and treated
as empty-width no-ops; an unmatched `(` or `)`, an unterminated `[`, a
dangling `\`, an out-of-order class range, and a quantifier with
nothing to repeat are rejected — these are exactly the conditions under
which `new RegExp` throws for this fragment. -/

/-- One entry of a character class. -/
inductive ClsItem where
  | single (c : Char)
  | range (lo hi : Char)
  deriving DecidableEq, Repr

/-- Regular-expression abstract syntax. -/
inductive Rx where
  | eps
  | char (c : Char)
  | dot
  | cls (neg : Bool) (items : List ClsItem)
  | group (r : Rx)
  | ngroup (name : String) (r : Rx)
  | seq (a b : Rx)
  | alt (a b : Rx)
  | star (lazy : Bool) (r : Rx)
  | plus (lazy : Bool) (r : Rx)
  | opt (lazy : Bool) (r : Rx)
  | bol
  | eol
  | wordb
  deriving DecidableEq, Repr, Inhabited

/-- `[0-9]`, the class denoted by `\d`. -/
def digitItems : List ClsItem := [ClsItem.range '0' '9']

/-- `[A-Za-z0-9_]`, the class denoted by `\w`. -/
def wordItems : List ClsItem :=
  [ClsItem.range 'A' 'Z', ClsItem.range 'a' 'z', ClsItem.range '0' '9', ClsItem.single '_']

/-- The whitespace class denoted by `\s` (ASCII part). -/
def spaceItems : List ClsItem :=
  [ClsItem.single ' ', ClsItem.single '\t', ClsItem.single '\n',
   ClsItem.single '\x0b', ClsItem.single '\x0c', ClsItem.single '\r']

/-- The atom denoted by the escape `\e` outside a character class:
class shorthands, control characters, word boundaries, and otherwise
the literal character itself. -/
def escAtom (e : Char) : Rx :=
  if e = 'd' then Rx.cls false digitItems
  else if e = 'D' then Rx.cls true digitItems
  else if e = 'w' then Rx.cls false wordItems
  else if e = 'W' then Rx.cls true wordItems
  else if e = 's' then Rx.cls false spaceItems
  else if e = 'S' then Rx.cls true spaceItems
  else if e = 'n' then Rx.char '\n'
  else if e = 't' then Rx.char '\t'
  else if e = 'r' then Rx.char '\r'
  else if e = 'f' then Rx.char '\x0c'
  else if e = 'v' then Rx.char '\x0b'
  else if e = '0' then Rx.char '\x00'
  else if e = 'b' ∨ e = 'B' then Rx.wordb
  else Rx.char e

/-- The class items denoted by the escape `\e` inside a character
class (`\b` is backspace there). -/
def escClsItems (e : Char) : List ClsItem :=
  if e = 'd' then digitItems
  else if e = 'w' then wordItems
  else if e = 's' then spaceItems
  else if e = 'n' then [ClsItem.single '\n']
  else if e = 't' then [ClsItem.single '\t']
  else if e = 'r' then [ClsItem.single '\r']
  else if e = 'f' then [ClsItem.single '\x0c']
  else if e = 'v' then [ClsItem.single '\x0b']
  else if e = 'b' then [ClsItem.single '\x08']
  else if e = '0' then [ClsItem.single '\x00']
  else [ClsItem.single e]

/-- Parses the body of a character class after `[` (and after an
optional leading `^`), up to the closing `]`.  `none` models the
`new RegExp` failures: an unterminated class, a dangling backslash, and
a range whose bounds are out of order. -/
def parseClsBody : Nat → List Char → Option (List ClsItem × List Char)
  | 0, _ => none
  | _ + 1, [] => none
  | fuel + 1, c :: cs =>
      if c = ']' then some ([], cs)
      else if c = '\\' then
        match cs with
        | [] => none
        | e :: cs2 =>
            match parseClsBody fuel cs2 with
            | some (items, rest) => some (escClsItems e ++ items, rest)
            | none => none
      else
        match cs with
        | '-' :: d :: cs2 =>
            if d = ']' then
              -- `-` before the closing bracket is a literal dash
              match parseClsBody fuel ('-' :: d :: cs2) with
              | some (items, rest) => some (ClsItem.single c :: items, rest)
              | none => none
            else if d = '\\' ∨ c > d then none
            else
              match parseClsBody fuel cs2 with
              | some (items, rest) => some (ClsItem.range c d :: items, rest)
              | none => none
        | _ =>
            match parseClsBody fuel cs with
            | some (items, rest) => some (ClsItem.single c :: items, rest)
            | none => none

mutual

/-- `alternative ('|' alternative)*`. -/
def parseAlt : Nat → List Char → Option (Rx × List Char)
  | 0, _ => none
  | fuel + 1, cs =>
      match parseSeq fuel cs with
      | none => none
      | some (r1, rest) =>
          match rest with
          | '|' :: rest2 =>
              match parseAlt fuel rest2 with
              | some (r2, rest3) => some (Rx.alt r1 r2, rest3)
              | none => none
          | _ => some (r1, rest)

/-- A possibly-empty run of quantified atoms, stopping at `|`, `)` or
the end of the input. -/
def parseSeq : Nat → List Char → Option (Rx × List Char)
  | 0, _ => none
  | fuel + 1, cs =>
      match cs with
      | [] => some (Rx.eps, [])
      | ')' :: _ => some (Rx.eps, cs)
      | '|' :: _ => some (Rx.eps, cs)
      | _ =>
          match parseTerm fuel cs with
          | none => none
          | some (r1, rest) =>
              match parseSeq fuel rest with
              | some (r2, rest2) => some (Rx.seq r1 r2, rest2)
              | none => none

/-- One atom followed by at most one quantifier, itself optionally made
lazy by a trailing `?`. -/
def parseTerm : Nat → List Char → Option (Rx × List Char)
  | 0, _ => none
  | fuel + 1, cs =>
      match parseAtom fuel cs with
      | none => none
      | some (r, rest) =>
          match rest with
          | '*' :: '?' :: rest2 => some (Rx.star true r, rest2)
          | '*' :: rest2 => some (Rx.star false r, rest2)
          | '+' :: '?' :: rest2 => some (Rx.plus true r, rest2)
          | '+' :: rest2 => some (Rx.plus false r, rest2)
          | '?' :: '?' :: rest2 => some (Rx.opt true r, rest2)
          | '?' :: rest2 => some (Rx.opt false r, rest2)
          | _ => some (r, rest)

/-- A single atom.  `none` models the `new RegExp` syntax errors of the
fragment: a quantifier with nothing to repeat, a dangling backslash,
an invalid group opener, a missing `)`, and class failures from
`parseClsBody`. -/
def parseAtom : Nat → List Char → Option (Rx × List Char)
  | 0, _ => none
  | fuel + 1, cs =>
      match cs with
      | [] => none
      | '(' :: rest =>
          match rest with
          | '?' :: ':' :: rest2 =>
              match parseGroupTail fuel rest2 with
              | some (r, rest3) => some (Rx.group r, rest3)
              | none => none
          | '?' :: '=' :: rest2 =>
              match parseGroupTail fuel rest2 with
              | some (_, rest3) => some (Rx.eps, rest3)
              | none => none
          | '?' :: '!' :: rest2 =>
              match parseGroupTail fuel rest2 with
              | some (_, rest3) => some (Rx.eps, rest3)
              | none => none
          | '?' :: '<' :: '=' :: rest2 =>
              match parseGroupTail fuel rest2 with
              | some (_, rest3) => some (Rx.eps, rest3)
              | none => none
          | '?' :: '<' :: '!' :: rest2 =>
              match parseGroupTail fuel rest2 with
              | some (_, rest3) => some (Rx.eps, rest3)
              | none => none
          | '?' :: '<' :: rest2 =>
              let nameChars := rest2.takeWhile isIdentChar
              match nameChars, rest2.dropWhile isIdentChar with
              | [], _ => none
              | _, '>' :: rest3 =>
                  match parseGroupTail fuel rest3 with
                  | some (r, rest4) => some (Rx.ngroup (String.mk nameChars) r, rest4)
                  | none => none
              | _, _ => none
          | '?' :: _ => none
          | _ =>
              match parseGroupTail fuel rest with
              | some (r, rest2) => some (Rx.group r, rest2)
              | none => none
      | ')' :: _ => none
      | '[' :: '^' :: rest =>
          match parseClsBody fuel rest with
          | some (items, rest2) => some (Rx.cls true items, rest2)
          | none => none
      | '[' :: rest =>
          match parseClsBody fuel rest with
          | some (items, rest2) => some (Rx.cls false items, rest2)
          | none => none
      | '^' :: rest => some (Rx.bol, rest)
      | '$' :: rest => some (Rx.eol, rest)
      | '.' :: rest => some (Rx.dot, rest)
      | '*' :: _ => none
      | '+' :: _ => none
      | '?' :: _ => none
      | '\\' :: [] => none
      | '\\' :: e :: rest => some (escAtom e, rest)
      | c :: rest => some (Rx.char c, rest)

/-- The body of a group up to its mandatory closing `)`. -/
def parseGroupTail : Nat → List Char → Option (Rx × List Char)
  | 0, _ => none
  | fuel + 1, cs =>
      match parseAlt fuel cs with
      | some (r, ')' :: rest) => some (r, rest)
      | _ => none

end

/-- Models `new RegExp(src)` for the fragment: the whole source must
parse with nothing left over.  A `none` result is `new RegExp`
throwing a `SyntaxError`. -/
def parseRegex (src : String) : Option Rx :=
  match parseAlt (4 * src.length + 16) src.toList with
  | some (r, []) => some r
  | _ => none

/-- Named captures collected along one match, in the order the groups
closed. -/
abbrev Caps := List (String × String)

/-- Whether a character is in a class item. -/
def ClsItem.mem (c : Char) : ClsItem → Bool
  | ClsItem.single d => c = d
  | ClsItem.range lo hi => lo ≤ c ∧ c ≤ hi

/-- Whether a character matches a (possibly negated) class. -/
def clsMatches (neg : Bool) (items : List ClsItem) (c : Char) : Bool :=
  (items.any (ClsItem.mem c)) != neg

/-- The characters `.` does not match. -/
def isLineTerm (c : Char) : Bool :=
  c = '\n' ∨ c = '\r' ∨ c = '\u2028' ∨ c = '\u2029'

/-- The backtracking matcher: all ways the expression can consume a
prefix of `s`, as `(remainder, captures)` pairs ordered by JavaScript
backtracking priority (greedy quantifiers try longer matches first,
alternation tries the left branch first), so the head of the list is
the match `RegExp.prototype.exec` commits to.  `orig` is the length of
the whole input, so `^` succeeds exactly when nothing has been consumed
yet; repetition of an expression that consumed nothing is cut off, as
in JavaScript.  Fuel bounds the recursion depth; `mrunFuel` below is
sufficient for every run. -/
def mrun : Nat → Rx → Nat → List Char → List (List Char × Caps)
  | 0, _, _, _ => []
  | _ + 1, Rx.eps, _, s => [(s, [])]
  | _ + 1, Rx.char c, _, s =>
      match s with
      | [] => []
      | x :: xs => if x = c then [(xs, [])] else []
  | _ + 1, Rx.dot, _, s =>
      match s with
      | [] => []
      | x :: xs => if isLineTerm x then [] else [(xs, [])]
  | _ + 1, Rx.cls neg items, _, s =>
      match s with
      | [] => []
      | x :: xs => if clsMatches neg items x then [(xs, [])] else []
  | fuel + 1, Rx.group r, orig, s => mrun fuel r orig s
  | fuel + 1, Rx.ngroup name r, orig, s =>
      (mrun fuel r orig s).map fun p =>
        (p.1, p.2 ++ [(name, String.mk (s.take (s.length - p.1.length)))])
  | fuel + 1, Rx.seq a b, orig, s =>
      (mrun fuel a orig s).flatMap fun p =>
        (mrun fuel b orig p.1).map fun q => (q.1, p.2 ++ q.2)
  | fuel + 1, Rx.alt a b, orig, s =>
      mrun fuel a orig s ++ mrun fuel b orig s
  | fuel + 1, Rx.star lzy r, orig, s =>
      let more :=
        (mrun fuel r orig s).flatMap fun p =>
          if p.1.length < s.length then
            (mrun fuel (Rx.star lzy r) orig p.1).map fun q => (q.1, p.2 ++ q.2)
          else []
      if lzy then (s, []) :: more else more ++ [(s, [])]
  | fuel + 1, Rx.plus lzy r, orig, s =>
      (mrun fuel r orig s).flatMap fun p =>
        (mrun fuel (Rx.star lzy r) orig p.1).map fun q => (q.1, p.2 ++ q.2)
  | fuel + 1, Rx.opt lzy r, orig, s =>
      if lzy then (s, []) :: mrun fuel r orig s
      else mrun fuel r orig s ++ [(s, [])]
  | _ + 1, Rx.bol, orig, s => if s.length = orig then [(s, [])] else []
  | _ + 1, Rx.eol, _, s => if s.isEmpty then [(s, [])] else []
  | _ + 1, Rx.wordb, _, s => [(s, [])]

/-- Structural size of an expression, used to budget matcher fuel. -/
def rxSize : Rx → Nat
  | Rx.eps | Rx.char _ | Rx.dot | Rx.cls _ _ | Rx.bol | Rx.eol | Rx.wordb => 1
  | Rx.group r | Rx.ngroup _ r => rxSize r + 1
  | Rx.seq a b | Rx.alt a b => rxSize a + rxSize b + 1
  | Rx.star _ r | Rx.plus _ r | Rx.opt _ r => rxSize r + 2

/-- A fuel budget exceeding the matcher's recursion depth: every level
either descends into a strict subexpression or restarts a quantifier on
a strictly shorter input. -/
def mrunFuel (r : Rx) (n : Nat) : Nat := (rxSize r + 2) * (n + 2)

/-- Models `regex.exec(path)` for a source produced by `compileRoute`
(always `^`-anchored, so only position 0 can match): the named-capture
groups of the backtracking engine's first successful match, or `none`
when the expression does not match. -/
def regexExec (r : Rx) (input : String) : Option Caps :=
  match mrun (mrunFuel r input.length) r input.length input.toList with
  | [] => none
  | p :: _ => some p.2

/-! ## Route table (src/core/router.ts: `CompiledRoute`, `addRoute`,
`matchRoute`) -/

/-- A compiled route as stored by `addRoute`: method, original pattern,
the `RegExp` (kept as both its source string and its parsed form),
ordered parameter names and the wildcard flag.  The handler and the
route-local middleware take no part in compilation or matching and are
not represented; `addRoute` receives their count to perform its
emptiness check. -/
structure Route where
  method : String
  path : String
  srcPattern : String
  regex : Rx
  paramNames : List String
  hasWildcard : Bool
  deriving DecidableEq, Repr, Inhabited

/-- Embeds `Router.compileRoute`: build the source string and hand it
to `new RegExp`; a syntax error escapes to the caller at registration
time, carrying the offending source. -/
def compileRoute (path : String) :
    Except String (String × Rx × List String × Bool) :=
  let (src, names, w) := buildSrc path
  match parseRegex src with
  | some r => Except.ok (src, r, names, w)
  | none => Except.error ("Invalid regular expression: /" ++ src ++ "/")

/-- Embeds `Router.addRoute`: reject an empty handler list, compile the
pattern (a compilation failure propagates and nothing is pushed), then
append the compiled route to the table. -/
def addRoute (routes : List Route) (method : String) (path : String)
    (numHandlers : Nat) : Except String (List Route) :=
  if numHandlers = 0 then Except.error "At least one handler must be provided"
  else
    match compileRoute path with
    | Except.error e => Except.error e
    | Except.ok (src, r, names, w) =>
        Except.ok (routes ++ [⟨method, path, src, r, names, w⟩])

/-- Models `new URL(url, "http://localhost").pathname` for the absolute
request paths exercised here: the part of the URL before any query or
fragment. -/
def urlPathname (url : String) : String :=
  String.mk (url.toList.takeWhile fun c => ¬(c = '?' ∨ c = '#'))

/-- Embeds the parameter extraction of `Router.matchRoute`: for each
declared name in order, `if (match.groups[name]) params[name] =
match.groups[name]` — a name whose capture is absent or empty is left
out of the params object entirely. -/
def extractParams (paramNames : List String) (groups : Caps) :
    List (String × String) :=
  paramNames.filterMap fun n =>
    match groups.lookup n with
    | some v => if v = "" then none else some (n, v)
    | none => none

/-- Embeds `Router.matchRoute`: strip the query from the URL, then scan
the table in insertion order and return the first route whose method
equals the request method and whose regex matches the path, together
with the extracted parameters. -/
def matchRoute (routes : List Route) (method url : String) :
    Option (Route × List (String × String)) :=
  let path := urlPathname url
  routes.findSome? fun route =>
    if route.method = method then
      match regexExec route.regex path with
      | some groups => some (route, extractParams route.paramNames groups)
      | none => none
    else none

/-- Embeds the terminal step of the global chain in `Router.handle`:
match the route; on no match write the 404 `"Route Not Found"` response
and stop; otherwise run the route-found continuation (parameter merge,
route middleware, handler). -/
def routeTerminal (routes : List Route) (method url : String)
    (found : Route → List (String × String) → Comp) : Comp := fun s =>
  match matchRoute routes method url with
  | none =>
      (Except.ok (),
        { s with res := (s.res.writeHead 404 "text/plain").endWith "Route Not Found" })
  | some (r, ps) => found r ps s

/-! ## File-path validation (src/unnamed/part_027 `serveStatic`,
src/core/template-engine.ts `renderFile`, src/core/context.ts
`Context.download`)

The Node `path` module (a platform primitive) is modelled for POSIX:
`path.resolve` and `path.normalize` with `sep = "/"`. -/

/-- Boolean string-prefix test, JavaScript `s.startsWith(pre)`. -/
def strStartsWith (s pre : String) : Bool :=
  pre.toList.isPrefixOf s.toList

/-- Resolves `.`/`..`/empty segments against a stack of kept segments;
`..` above the root is discarded. -/
def normSegsAbs : List String → List String → List String
  | acc, [] => acc
  | acc, seg :: rest =>
      if seg = "" ∨ seg = "." then normSegsAbs acc rest
      else if seg = ".." then normSegsAbs acc.dropLast rest
      else normSegsAbs (acc ++ [seg]) rest

/-- Models POSIX `path.resolve(...paths)` when the first path is
absolute (every call site passes `process.cwd()` or another resolved
directory first): later absolute arguments restart resolution, relative
ones are appended, and the joined path is normalised with no trailing
separator. -/
def pathResolve (paths : List String) : String :=
  let joined := paths.foldl
    (fun acc p => if strStartsWith p "/" then p else acc ++ "/" ++ p) ""
  let segs := normSegsAbs [] ((splitOnSlash joined.toList).map String.mk)
  "/" ++ String.intercalate "/" segs

/-- Resolves `.`/`..`/empty segments of a relative path: `..` cancels a
preceding real segment and is kept when nothing precedes it. -/
def normSegsRel : List String → List String → List String
  | acc, [] => acc
  | acc, seg :: rest =>
      if seg = "" ∨ seg = "." then normSegsRel acc rest
      else if seg = ".." then
        match acc.getLast? with
        | some l => if l = ".." then normSegsRel (acc ++ [".."]) rest
                    else normSegsRel acc.dropLast rest
        | none => normSegsRel (acc ++ [".."]) rest
      else normSegsRel (acc ++ [seg]) rest

/-- Models POSIX `path.normalize(p)`: collapses `.`/`..`/doubled
separators, keeps leading `..` of a relative path and a trailing
separator, and yields `"."` for an empty result. -/
def pathNormalize (p : String) : String :=
  if p = "" then "."
  else
    let abs := strStartsWith p "/"
    let segs₀ := (splitOnSlash p.toList).map String.mk
    let segs := if abs then normSegsAbs [] segs₀ else normSegsRel [] segs₀
    let core := String.intercalate "/" segs
    let trail := if p.toList.getLast? = some '/' ∧ ¬segs.isEmpty then "/" else ""
    if abs then "/" ++ core ++ trail
    else if segs.isEmpty then "." else core ++ trail

/-- One hexadecimal digit's value. -/
def hexVal (c : Char) : Option Nat :=
  if '0' ≤ c ∧ c ≤ '9' then some (c.toNat - '0'.toNat)
  else if 'a' ≤ c ∧ c ≤ 'f' then some (c.toNat - 'a'.toNat + 10)
  else if 'A' ≤ c ∧ c ≤ 'F' then some (c.toNat - 'A'.toNat + 10)
  else none

/-- Models `decodeURIComponent` on the ASCII range: `%hh` becomes the
character with code `hh`; other characters pass through. -/
def percentDecode : List Char → List Char
  | [] => []
  | '%' :: h1 :: h2 :: rest =>
      match hexVal h1, hexVal h2 with
      | some v1, some v2 => Char.ofNat (16 * v1 + v2) :: percentDecode rest
      | _, _ => '%' :: percentDecode (h1 :: h2 :: rest)
  | c :: rest => c :: percentDecode rest

/-- `decodeURIComponent` over strings. -/
def decodeURIComponent (s : String) : String :=
  String.mk (percentDecode s.toList)

/-- What a file-serving helper decides to do with a request before any
filesystem read: read a resolved path, reply 403, hand the request to
`next`, or throw a traversal error. -/
inductive FileOutcome where
  | read (path : String)
  | forbidden
  | passNext
  | traversalError
  deriving DecidableEq, Repr

/-- Embeds the `serveStatic(baseDir)` middleware (src/unnamed/part_027)
up to its first filesystem access: URLs outside `/static/` go to
`next`; otherwise the URL remainder is percent-decoded, resolved
against `path.resolve(cwd, baseDir)`, and checked with
`resolvedPath.startsWith(safeBase)` — with no trailing-separator
component — before `fs.readFile(resolvedPath)`. -/
def serveStaticCheck (cwd baseDir url : String) : FileOutcome :=
  if ¬strStartsWith url "/static/" then FileOutcome.passNext
  else
    let unsafePath := decodeURIComponent (String.mk (url.toList.drop 8))
    let resolvedPath := pathResolve [cwd, baseDir, unsafePath]
    let safeBase := pathResolve [cwd, baseDir]
    if ¬strStartsWith resolvedPath safeBase then FileOutcome.forbidden
    else FileOutcome.read resolvedPath

/-- Embeds `renderFile` (src/core/template-engine.ts) up to its
`readFileSync`: resolve the normalised path against `VIEWS_PATH` and
require the result to start with `VIEWS_PATH + sep`, throwing
`"Path traversal attempt blocked"` otherwise. -/
def renderFileCheck (viewsPath filePath : String) : FileOutcome :=
  let fullPath := pathResolve [viewsPath, pathNormalize filePath]
  if ¬strStartsWith fullPath (viewsPath ++ "/") then FileOutcome.traversalError
  else FileOutcome.read fullPath

/-- Embeds `Context.download` (src/core/context.ts) up to its
`statSync`/`readFileSync`: the argument is used as the file path
directly — there is no base directory, no resolution and no check. -/
def downloadCheck (filePath : String) : FileOutcome :=
  FileOutcome.read filePath

/-! ## Demonstration route tables -/

/-- The table after `router.get("/users/:id", handler)`. -/
def usersIdTable : List Route :=
  match addRoute [] "GET" "/users/:id" 1 with
  | Except.ok t => t
  | Except.error _ => []

/-- The table after registering `/users/:id` and then `/users/me`. -/
def usersBothTable : List Route :=
  match addRoute usersIdTable "GET" "/users/me" 1 with
  | Except.ok t => t
  | Except.error _ => []

/-- The table after `router.get("/files/*", handler)`. -/
def filesTable : List Route :=
  match addRoute [] "GET" "/files/*" 1 with
  | Except.ok t => t
  | Except.error _ => []

/-- The table after `router.get("/a/*/b", handler)` — a wildcard
character in a non-final segment. -/
def starMidTable : List Route :=
  match addRoute [] "GET" "/a/*/b" 1 with
  | Except.ok t => t
  | Except.error _ => []

/-! # Theorems -/

/-- C1, counterexample.  Under `runMiddlewares`, a middleware that
invokes `next` twice is not rejected: the run completes without error
and the remainder of the chain (here the handler) executes a second
time — refuting the claim that every core executor rejects a double
`next` invocation immediately. -/
theorem c1_runMiddlewares_tolerates_double_next :
    runMiddlewares [doubleNextMw "A"] (recHandler "H") S.init
      = (Except.ok (),
         { S.init with
             trace := [Event.pre "A", Event.handled "H", Event.handled "H"] }) := by
  rfl

/-- C1, amended.  The guard exists only in `compose`: (1) its
dispatcher throws `"next() called multiple times"` whenever a position
is re-entered at or below the recorded index, at every middleware
position; (2) a composed chain containing a double-`next` middleware
therefore rejects, with the remainder having run only once; (3)
`runMiddlewares` has no guard — the same middleware makes it run the
remainder twice and complete without error. -/
theorem c1_amended_double_next_guard :
    (∀ (next : Comp) (rest : List Mw) (i : Int) (s : S),
        i ≤ s.composeIdx →
        dispatch next rest i s = (Except.error "next() called multiple times", s))
    ∧ (∀ a d b h : String,
        runMiddlewares [compose [recMw a, doubleNextMw d, recMw b]]
            (recHandler h) S.init
          = (Except.error "next() called multiple times",
             { trace := [Event.pre a, Event.pre d, Event.pre b, Event.handled h,
                         Event.post b],
               res := Res.init, composeIdx := 3 }))
    ∧ (∀ d h : String,
        runMiddlewares [doubleNextMw d] (recHandler h) S.init
          = (Except.ok (),
             { S.init with
                 trace := [Event.pre d, Event.handled h, Event.handled h] })) := by
  refine ⟨fun next rest i s hle => ?_, fun a d b h => rfl, fun d h => rfl⟩
  cases rest <;> simp [dispatch, hle]

/-- C1, witness for the amended theorem: the dispatcher rejects a
re-entry of position 0 when the recorded index is already 5. -/
theorem c1_amended_double_next_guard_witness :
    dispatch (fun s => (Except.ok (), s)) [] 0 { S.init with composeIdx := 5 }
      = (Except.error "next() called multiple times",
         { S.init with composeIdx := 5 }) :=
  c1_amended_double_next_guard.1 _ [] 0 _ (by decide)

/-- C3.  If the chain run by `Router.handle` throws, the `catch` block
writes exactly one 500 response with plain-text body
`"Internal Server Error"` when no response has been written yet, and
leaves the response untouched (log only) when headers were already
sent. -/
theorem c3_uncaught_failure_single_500 (chain : Comp) (s s₁ : S) (e : String)
    (hrun : chain s = (Except.error e, s₁)) :
    (s₁.res.headersSent = false →
      handleChain chain s
        = (Except.ok (),
           { s₁ with res :=
               { s₁.res with
                   headersSent := true, pending := none,
                   sent := s₁.res.sent ++ [⟨500, "text/plain", "Internal Server Error"⟩] } }))
    ∧ (s₁.res.headersSent = true →
      handleChain chain s = (Except.ok (), s₁)) := by
  constructor <;> intro hsent <;> simp [handleChain, hrun, hsent, Res.writeHead, Res.endWith]

/-- C3, witness: a chain that throws at once, against a fresh response
object, produces the single 500 response. -/
theorem c3_uncaught_failure_single_500_witness :
    handleChain (fun s => (Except.error "boom", s)) S.init
      = (Except.ok (),
         { S.init with res :=
             { Res.init with
                 headersSent := true, pending := none,
                 sent := [⟨500, "text/plain", "Internal Server Error"⟩] } }) :=
  (c3_uncaught_failure_single_500 _ S.init S.init "boom" rfl).1 rfl

/-- C4.  Strict onion composition of `runMiddlewares`: (1) with
middleware [A, B, C] that await `next` and handler H, pre-`next` code
runs A, B, C, then H, and post-`next` code runs H, C, B, A — each
middleware's post code runs only after the whole remainder completed;
(2) prepending a middleware wraps it around the remainder of the
chain; (3) a middleware that never calls `next` prevents all
subsequent middleware and the handler from running. -/
theorem c4_onion_composition :
    (∀ a b c h : String,
      runMiddlewares [recMw a, recMw b, recMw c] (recHandler h) S.init
        = (Except.ok (),
           { S.init with
               trace := [Event.pre a, Event.pre b, Event.pre c, Event.handled h,
                         Event.post c, Event.post b, Event.post a] }))
    ∧ (∀ (m : Mw) (mws : List Mw) (hd : Comp),
        runMiddlewares (m :: mws) hd = m (runMiddlewares mws hd))
    ∧ (∀ a b c h : String,
      runMiddlewares [recMw a, noNextMw b, recMw c] (recHandler h) S.init
        = (Except.ok (),
           { S.init with trace := [Event.pre a, Event.pre b, Event.post a] })) :=
  ⟨fun _ _ _ _ => rfl, fun _ _ _ => funext fun _ => rfl, fun _ _ _ _ => rfl⟩

/-- A route whose method differs or whose regex rejects the path is
skipped by the linear scan. -/
theorem matchRoute_cons_skip (r' : Route) (routes : List Route)
    (method url : String)
    (h : r'.method ≠ method ∨ regexExec r'.regex (urlPathname url) = none) :
    matchRoute (r' :: routes) method url = matchRoute routes method url := by
  rcases h with h | h
  · simp [matchRoute, List.findSome?_cons, h]
  · by_cases hm : r'.method = method <;> simp [matchRoute, List.findSome?_cons, hm, h]

/-- The scan stops at the first route whose method and regex both
match. -/
theorem matchRoute_cons_hit (r : Route) (routes : List Route)
    (method url : String) (gs : Caps)
    (hm : r.method = method)
    (hx : regexExec r.regex (urlPathname url) = some gs) :
    matchRoute (r :: routes) method url
      = some (r, extractParams r.paramNames gs) := by
  simp [matchRoute, List.findSome?_cons, hm, hx]

/-- C5.  Route matching is a linear scan in insertion order returning
the first route whose method and pattern both match: (1) generally,
whenever every route registered before `r` fails on method or pattern
and `r` matches, `r` is returned with its extracted parameters; (2)
concretely, after registering `/users/:id` and then `/users/me`, a GET
of `/users/me` binds to the first, parameterized route with
`id = "me"` — no most-specific-wins resolution. -/
theorem c5_insertion_order_first_match :
    (∀ (pre post : List Route) (r : Route) (method url : String) (gs : Caps),
      (∀ r' ∈ pre, r'.method ≠ method ∨ regexExec r'.regex (urlPathname url) = none) →
      r.method = method →
      regexExec r.regex (urlPathname url) = some gs →
      matchRoute (pre ++ r :: post) method url
        = some (r, extractParams r.paramNames gs))
    ∧ addRoute [] "GET" "/users/:id" 1 = Except.ok usersIdTable
    ∧ addRoute usersIdTable "GET" "/users/me" 1 = Except.ok usersBothTable
    ∧ usersBothTable.map Route.path = ["/users/:id", "/users/me"]
    ∧ (matchRoute usersBothTable "GET" "/users/me").map (fun p => (p.1.path, p.2))
        = some ("/users/:id", [("id", "me")]) := by
  refine ⟨?_, rfl, rfl, rfl, rfl⟩
  intro pre post r method url gs hpre hm hx
  induction pre with
  | nil => simpa using matchRoute_cons_hit r post method url gs hm hx
  | cons r' pre ih =>
      rw [List.cons_append,
          matchRoute_cons_skip r' _ method url (hpre r' (List.mem_cons_self r' pre))]
      exact ih fun q hq => hpre q (List.mem_cons_of_mem r' hq)

/-- C5, witness: the general first-match statement applied to the
two-route table — the prefix is the empty list of earlier routes. -/
theorem c5_insertion_order_first_match_witness :
    matchRoute ([] ++ usersBothTable) "GET" "/users/me"
      = some (usersBothTable.head!,
              extractParams usersBothTable.head!.paramNames [("id", "me")]) := by
  exact c5_insertion_order_first_match.1 [] usersBothTable.tail
    usersBothTable.head! "GET" "/users/me" [("id", "me")]
    (by intro r' hr'; simp at hr') rfl rfl

/-- C6.  A pattern whose generated regular expression is rejected by
the engine (a malformed `:name(sub-pattern)` constraint: unbalanced
grouping, unterminated class, and the like) makes `compileRoute`, and
therefore `addRoute`, fail at registration time with the engine's
diagnostic carrying the offending source; no route is ever added, so
no failure from that pattern can occur at request time. -/
theorem c6_malformed_constraint_fails_at_registration
    (routes : List Route) (method path : String) (n : Nat)
    (hparse : parseRegex (buildSrc path).1 = none) (hn : n ≠ 0) :
    compileRoute path
      = Except.error ("Invalid regular expression: /" ++ (buildSrc path).1 ++ "/")
    ∧ addRoute routes method path n
      = Except.error ("Invalid regular expression: /" ++ (buildSrc path).1 ++ "/")
    ∧ ∀ t, addRoute routes method path n ≠ Except.ok t := by
  have hc : compileRoute path
      = Except.error ("Invalid regular expression: /" ++ (buildSrc path).1 ++ "/") := by
    rcases hb : buildSrc path with ⟨src, names, w⟩
    rw [hb] at hparse
    simp only at hparse
    simp [compileRoute, hb, hparse]
  refine ⟨hc, ?_, ?_⟩
  · simp [addRoute, hn, hc]
  · intro t
    simp [addRoute, hn, hc]

/-- C6, witness: `/users/:id([)` — an unterminated character class in
the constraint — is rejected when registered. -/
theorem c6_malformed_constraint_fails_at_registration_witness :
    addRoute [] "GET" "/users/:id([)" 1
      = Except.error "Invalid regular expression: /^/users/(?<id>[)$/" :=
  (c6_malformed_constraint_fails_at_registration [] "GET" "/users/:id([)" 1
    rfl (by decide)).2.1

/-- C7.  An unconstrained `:id` compiles to the mandatory non-empty
segment group `[^/]+`: `/users/:id` matches `/users/42` with
`id = "42"`, while `/users/` and `/users/a/b` do not match, and the
orchestrator's terminal step answers the unmatched `/users/` with the
404 `"Route Not Found"` response. -/
theorem c7_param_segment_mandatory_nonempty :
    buildSrc "/users/:id" = ("^/users/(?<id>[^/]+)$", ["id"], false)
    ∧ addRoute [] "GET" "/users/:id" 1 = Except.ok usersIdTable
    ∧ (matchRoute usersIdTable "GET" "/users/42").map (fun p => (p.1.path, p.2))
        = some ("/users/:id", [("id", "42")])
    ∧ matchRoute usersIdTable "GET" "/users/" = none
    ∧ matchRoute usersIdTable "GET" "/users/a/b" = none
    ∧ ∀ found : Route → List (String × String) → Comp,
        routeTerminal usersIdTable "GET" "/users/" found S.init
          = (Except.ok (),
             { S.init with res :=
                 { Res.init with
                     headersSent := true, pending := none,
                     sent := [⟨404, "text/plain", "Route Not Found"⟩] } }) :=
  ⟨rfl, rfl, rfl, rfl, rfl, fun _ => rfl⟩

/-- C8.  A final `*` segment compiles to the named group
`(?<wildcard>.*)` with no trailing anchor, so `/files/*` matched
against `/files/a/b/c.txt` captures the whole remainder, separators
included, as `wildcard = "a/b/c.txt"`. -/
theorem c8_wildcard_captures_remainder :
    buildSrc "/files/*" = ("^/files/(?<wildcard>.*)", ["wildcard"], true)
    ∧ addRoute [] "GET" "/files/*" 1 = Except.ok filesTable
    ∧ (matchRoute filesTable "GET" "/files/a/b/c.txt").map (fun p => (p.1.path, p.2))
        = some ("/files/*", [("wildcard", "a/b/c.txt")]) :=
  ⟨rfl, rfl, rfl⟩

/-- Unfolding of parameter extraction over the first declared name. -/
theorem extractParams_cons (m : String) (names : List String) (groups : Caps) :
    extractParams (m :: names) groups
      = match groups.lookup m with
        | some v => if v = "" then extractParams names groups
                    else (m, v) :: extractParams names groups
        | none => extractParams names groups := by
  simp only [extractParams, List.filterMap_cons]
  cases groups.lookup m with
  | none => rfl
  | some v => by_cases hv : v = "" <;> simp [hv]

/-- C9.  Parameter extraction drops empty captures: (1) every binding
in the params map comes from a non-empty capture; (2) a name captured
as the empty string is absent from the params map; (3) the route still
matches — `/files/*` against `/files/` matches with an empty params
map, no `wildcard` key. -/
theorem c9_empty_capture_omitted :
    (∀ (names : List String) (groups : Caps) (n v : String),
      (extractParams names groups).lookup n = some v →
      groups.lookup n = some v ∧ v ≠ "")
    ∧ (∀ (names : List String) (groups : Caps) (n : String),
      groups.lookup n = some "" →
      (extractParams names groups).lookup n = none)
    ∧ (matchRoute filesTable "GET" "/files/").map (fun p => (p.1.path, p.2))
        = some ("/files/*", []) := by
  refine ⟨?_, ?_, rfl⟩
  · intro names groups n v
    induction names with
    | nil => simp [extractParams]
    | cons m names ih =>
        rw [extractParams_cons]
        cases hg : groups.lookup m with
        | none => exact ih
        | some v' =>
            by_cases hv : v' = ""
            · simpa [hv] using ih
            · simp only [if_neg hv]
              by_cases hnm : n = m
              · subst hnm
                simp only [List.lookup, beq_self_eq_true]
                intro h
                cases h
                exact ⟨hg, hv⟩
              · simp only [List.lookup, beq_false_of_ne hnm]
                exact ih
  · intro names groups n hg
    induction names with
    | nil => simp [extractParams]
    | cons m names ih =>
        rw [extractParams_cons]
        cases hgm : groups.lookup m with
        | none => exact ih
        | some v' =>
            by_cases hv : v' = ""
            · simpa [hv] using ih
            · simp only [if_neg hv]
              by_cases hnm : n = m
              · subst hnm
                rw [hg] at hgm
                cases hgm
                exact absurd rfl hv
              · simp only [List.lookup, beq_false_of_ne hnm]
                exact ih

/-- C9, witness: extraction over the concrete groups of `/files/*`
matched against `/files/` — the empty `wildcard` capture yields no
binding. -/
theorem c9_empty_capture_omitted_witness :
    (extractParams ["wildcard"] [("wildcard", "")]).lookup "wildcard" = none :=
  c9_empty_capture_omitted.2.1 ["wildcard"] [("wildcard", "")] "wildcard" rfl

/-- Unfolding of the wildcard flag over the first segment. -/
theorem compileGo_cons_flag (seg : String) (rest : List String) :
    (compileGo (seg :: rest)).2.2
      = ((compileSegment rest.isEmpty seg).2.2 || (compileGo rest).2.2) := by
  simp only [compileGo]

/-- A segment list whose last element is not `*` never sets the
wildcard flag. -/
theorem compileGo_flag_of_ne (segs : List String)
    (h : segs.getLast? ≠ some "*") : (compileGo segs).2.2 = false := by
  induction segs with
  | nil => rfl
  | cons seg rest ih =>
      rw [compileGo_cons_flag, Bool.or_eq_false_iff]
      cases rest with
      | nil =>
          have hs : seg ≠ "*" := by simpa using h
          exact ⟨by simp [compileSegment, hs], rfl⟩
      | cons r rs =>
          have h' : (r :: rs).getLast? ≠ some "*" := by
            simpa [List.getLast?_cons_cons] using h
          exact ⟨by simp [compileSegment], ih h'⟩

/-- C10.  A `*` that is not the final segment is not a wildcard: (1) a
pattern whose last segment is not `*` compiles with `hasWildcard =
false` and keeps the `$` anchor; (2) a non-final `*` segment is
escaped to the literal `\*` and contributes no parameter name; (3)
concretely, `/a/*/b` compiles to `^/a/\*/b$` with no parameter names
and no wildcard flag, matches the literal path `/a/*/b`, and rejects
`/a/x/b`. -/
theorem c10_nonfinal_star_is_literal :
    (∀ path : String, (segmentsOf path).getLast? ≠ some "*" →
      (buildSrc path).2.2 = false ∧ ∃ p, (buildSrc path).1 = p ++ "$")
    ∧ compileSegment false "*" = ("\\*", [], false)
    ∧ addRoute [] "GET" "/a/*/b" 1 = Except.ok starMidTable
    ∧ (starMidTable.map fun r => (r.srcPattern, r.paramNames, r.hasWildcard))
        = [("^/a/\\*/b$", [], false)]
    ∧ (matchRoute starMidTable "GET" "/a/*/b").map (fun p => (p.1.path, p.2))
        = some ("/a/*/b", [])
    ∧ matchRoute starMidTable "GET" "/a/x/b" = none := by
  refine ⟨?_, rfl, rfl, rfl, rfl, rfl⟩
  intro path h
  have hf := compileGo_flag_of_ne (segmentsOf path) h
  rcases hcg : compileGo (segmentsOf path) with ⟨parts, names, w⟩
  have hw : w = false := by simpa [hcg] using hf
  subst hw
  constructor
  · simp [buildSrc, hcg]
  · refine ⟨"^" ++ (if parts = [] then "" else "/" ++ String.intercalate "/" parts), ?_⟩
    simp [buildSrc, hcg]

/-- C10, witness: the compiled form of `/a/*/b` has no wildcard flag
and an anchored source. -/
theorem c10_nonfinal_star_is_literal_witness :
    (buildSrc "/a/*/b").2.2 = false ∧ ∃ p, (buildSrc "/a/*/b").1 = p ++ "$" :=
  c10_nonfinal_star_is_literal.1 "/a/*/b" (by decide)

/-- C2, counterexample.  `serveStatic` checks only the plain
`startsWith(safeBase)` with no trailing separator, so the sibling
directory probe `/static/../public-evil/secret.txt` resolves outside
the base directory `/app/public` (its resolved path is not prefixed by
the base plus separator) and yet reaches the file read instead of being
rejected. -/
theorem c2_serveStatic_sibling_dir_read :
    serveStaticCheck "/app" "public" "/static/../public-evil/secret.txt"
      = FileOutcome.read "/app/public-evil/secret.txt"
    ∧ pathResolve ["/app", "public"] = "/app/public"
    ∧ strStartsWith "/app/public-evil/secret.txt" ("/app/public" ++ "/") = false :=
  ⟨rfl, rfl, rfl⟩

/-- C2, amended.  Validation differs per helper: (1) `renderFile`
resolves against the views base and rejects with a traversal error,
before any read, whenever the resolved path is not prefixed by the base
plus trailing separator; (2) when the prefixed check succeeds it
proceeds to read the resolved path; (3) `serveStatic` resolves against
its base but compares with a plain prefix — failures are rejected with
403 before any read, yet a sibling directory extending the base name
passes; (4) `Context.download` applies no base-directory validation at
all and always proceeds to read its argument. -/
theorem c2_amended_per_helper_validation :
    (∀ views fp : String,
      strStartsWith (pathResolve [views, pathNormalize fp]) (views ++ "/") = false →
      renderFileCheck views fp = FileOutcome.traversalError)
    ∧ (∀ views fp : String,
      strStartsWith (pathResolve [views, pathNormalize fp]) (views ++ "/") = true →
      renderFileCheck views fp
        = FileOutcome.read (pathResolve [views, pathNormalize fp]))
    ∧ (∀ cwd base url : String,
      strStartsWith url "/static/" = true →
      strStartsWith
          (pathResolve [cwd, base,
            decodeURIComponent (String.mk (url.toList.drop 8))])
          (pathResolve [cwd, base]) = false →
      serveStaticCheck cwd base url = FileOutcome.forbidden)
    ∧ (∀ fp : String, downloadCheck fp = FileOutcome.read fp) := by
  refine ⟨fun views fp h => ?_, fun views fp h => ?_, fun cwd base url hu h => ?_,
    fun fp => rfl⟩
  · simp [renderFileCheck, h]
  · simp [renderFileCheck, h]
  · simp only [String.toList] at h
    simp [serveStaticCheck, hu, h]

/-- C2, witness for the amended theorem: `renderFile` rejects the
sibling-directory probe `../views-evil/x.html`, and `serveStatic`
rejects the out-of-base probe `/static/../../etc/passwd` with 403. -/
theorem c2_amended_per_helper_validation_witness :
    renderFileCheck "/app/views" "../views-evil/x.html" = FileOutcome.traversalError
    ∧ serveStaticCheck "/app" "public" "/static/../../etc/passwd"
        = FileOutcome.forbidden :=
  ⟨c2_amended_per_helper_validation.1 "/app/views" "../views-evil/x.html" rfl,
   c2_amended_per_helper_validation.2.2.1 "/app" "public" "/static/../../etc/passwd"
     rfl rfl⟩

end Reiatsu
